import Mathlib

/-!
Shallow embedding of the reference-extraction engine of `plaintextref.py`.

The source program rewrites bracketed reference spans in a text file into
sequentially numbered footnote markers `[n]`, collecting the references in a
trailing appendix, and reconciles an already existing appendix found in the
input.  The embedding below translates, from the source:

* the per-line regex substitution (the one alternation pattern with named
  groups `rd`, `rd_word`, `sq_qu_open`, `sq_qu_quotes`, `sq_qu_close`,
  `sq_d`, `sq_d_word`, `sq`, `sq_word`) as an explicit leftmost scan that
  tries the four alternatives in pattern order at every position;
* the substitution callback `inspect_brackets`, with the global state
  (`counter`, `references`, `duplicate_ref`, `oldreferences`) threaded
  explicitly;
* the old-appendix pre-pass `old_refs` with its callback `parse_oldrefs`;
* `write_appendix` and the main per-line loop of `__main__`.

Machine-level caveats: Python's `\w` and `\d` are modelled on their ASCII
fragment (all inputs in the claims are ASCII), and `urlparse` is modelled by
its scheme/netloc extraction, which is all the source consults.
-/

/-- State mutated by the classification pass: the footnote counter, the
insertion-ordered reference table (content, number), the list of contents
already reported as duplicates, and the old-appendix table (content, old
number as the digit string found in the old appendix). -/
structure RunState where
  counter : Nat
  references : List (String × Nat)
  duplicate_ref : List String
  oldreferences : List (String × String)
deriving Repr, DecidableEq

/-- The named capture groups of one match of the source's bracket pattern;
`matched` is group 0 (the full matched text).  A group is `none` when its
alternative did not participate in the match. -/
structure BMatch where
  matched : List Char := []
  rd : Option (List Char) := none
  rd_word : Option (List Char) := none
  sq_qu_open : Option (List Char) := none
  sq_qu_quotes : Option (List Char) := none
  sq_qu_close : Option (List Char) := none
  sq_d : Option (List Char) := none
  sq_d_word : Option (List Char) := none
  sq : Option (List Char) := none
  sq_word : Option (List Char) := none
deriving Repr, DecidableEq

/-- Python's `\w` on its ASCII fragment: letters, digits, underscore. -/
def isWordChar (c : Char) : Bool :=
  c.isAlphanum || c == '_'

/-- Characters allowed in a URL scheme by `urlparse`. -/
def isSchemeChar (c : Char) : Bool :=
  c.isAlphanum || c == '+' || c == '-' || c == '.'

/-- Split a character list at the first colon, if any. -/
def splitOnColon : List Char → Option (List Char × List Char)
  | [] => none
  | c :: cs =>
    if c == ':' then some ([], cs)
    else
      match splitOnColon cs with
      | some (a, b) => some (c :: a, b)
      | none => none

/-- The scheme/rest split of `urlparse`: a scheme is a non-empty run before
the first colon that starts with a letter and consists of scheme characters;
otherwise the scheme is empty and the input is left whole. -/
def urlSchemeSplit (cs : List Char) : List Char × List Char :=
  match splitOnColon cs with
  | some (before, after) =>
    if before ≠ [] ∧ (match before with | b :: _ => b.isAlpha | [] => false) = true
        ∧ before.all isSchemeChar then
      (before, after)
    else ([], cs)
  | none => ([], cs)

/-- The netloc of `urlparse`: present only after a leading `//`, extending to
the next `/`, `?` or `#`. -/
def urlNetloc (rest : List Char) : List Char :=
  match rest with
  | '/' :: '/' :: r => r.takeWhile (fun c => !(c == '/' || c == '?' || c == '#'))
  | _ => []

/-- The check the source performs on round-bracket content (line 293):
`url.scheme != '' and url.netloc != ''`. -/
def urlcheck (cs : List Char) : Bool :=
  let sp := urlSchemeSplit cs
  !sp.1.isEmpty && !(urlNetloc sp.2).isEmpty

/-- First alternative of the source pattern:
`([ ]*[\(])(?P<rd>[^\(\)]*)([\)])(?P<rd_word>\w*)`.  Returns the capture
groups and the unconsumed remainder. -/
def matchRd (cs : List Char) : Option (BMatch × List Char) :=
  match cs.dropWhile (· == ' ') with
  | '(' :: r2 =>
    match r2.dropWhile (fun c => !(c == '(' || c == ')')) with
    | ')' :: r4 =>
      some ({ matched := cs.takeWhile (· == ' ') ++
                '(' :: (r2.takeWhile (fun c => !(c == '(' || c == ')')) ++
                  ')' :: r4.takeWhile isWordChar),
              rd := some (r2.takeWhile (fun c => !(c == '(' || c == ')'))),
              rd_word := some (r4.takeWhile isWordChar) },
            r4.dropWhile isWordChar)
    | _ => none
  | _ => none

/-- Character class `[^\"“”[]*` of the quoted-bracket alternative. -/
def notQuoteLb (c : Char) : Bool :=
  !(c == '"' || c == '“' || c == '”' || c == '[')

/-- Character class `[^\"“”\]]+` of the quoted-bracket alternative. -/
def notQuoteRb (c : Char) : Bool :=
  !(c == '"' || c == '“' || c == '”' || c == ']')

/-- Character class `[^“”\"]*` of the quoted-bracket alternative. -/
def notQuote (c : Char) : Bool :=
  !(c == '“' || c == '”' || c == '"')

/-- Second alternative of the source pattern: a square-bracket span inside
quotation marks,
`(?P<sq_qu_open>([“]|[\"]))(?P<sq_qu_quotes>...)(?P<sq_qu_close>([”]|[\"]))`. -/
def matchQu (cs : List Char) : Option (BMatch × List Char) :=
  match cs with
  | q :: r1 =>
    if q == '“' || q == '"' then
      let a := r1.takeWhile notQuoteLb
      match r1.dropWhile notQuoteLb with
      | '[' :: r3 =>
        let b := r3.takeWhile notQuoteRb
        if b.isEmpty then none
        else
          match r3.dropWhile notQuoteRb with
          | ']' :: r5 =>
            let c3 := r5.takeWhile notQuote
            match r5.dropWhile notQuote with
            | q2 :: r7 =>
              if q2 == '”' || q2 == '"' then
                let quotes := a ++ '[' :: (b ++ ']' :: c3)
                some ({ matched := q :: (quotes ++ [q2]),
                        sq_qu_open := some [q], sq_qu_quotes := some quotes,
                        sq_qu_close := some [q2] }, r7)
              else none
            | [] => none
          | _ => none
      | _ => none
    else none
  | [] => none

/-- Third alternative of the source pattern:
`([ ]*[\[])(?P<sq_d>\d+)([\]])(?P<sq_d_word>\w*)`. -/
def matchSqD (cs : List Char) : Option (BMatch × List Char) :=
  match cs.dropWhile (· == ' ') with
  | '[' :: r2 =>
    if (r2.takeWhile Char.isDigit).isEmpty then none
    else
      match r2.dropWhile Char.isDigit with
      | ']' :: r4 =>
        some ({ matched := cs.takeWhile (· == ' ') ++
                  '[' :: (r2.takeWhile Char.isDigit ++
                    ']' :: r4.takeWhile isWordChar),
                sq_d := some (r2.takeWhile Char.isDigit),
                sq_d_word := some (r4.takeWhile isWordChar) },
              r4.dropWhile isWordChar)
      | _ => none
  | _ => none

/-- Fourth alternative of the source pattern:
`([ ]*[\[])(?P<sq>[^\[\]]*)([\]])(?P<sq_word>\w*)`. -/
def matchSq (cs : List Char) : Option (BMatch × List Char) :=
  match cs.dropWhile (· == ' ') with
  | '[' :: r2 =>
    match r2.dropWhile (fun c => !(c == '[' || c == ']')) with
    | ']' :: r4 =>
      some ({ matched := cs.takeWhile (· == ' ') ++
                '[' :: (r2.takeWhile (fun c => !(c == '[' || c == ']')) ++
                  ']' :: r4.takeWhile isWordChar),
              sq := some (r2.takeWhile (fun c => !(c == '[' || c == ']'))),
              sq_word := some (r4.takeWhile isWordChar) },
            r4.dropWhile isWordChar)
    | _ => none
  | _ => none

/-- One attempt of the whole alternation at a fixed position: alternatives
are tried in pattern order, as Python's regex engine does. -/
def tryMatch (cs : List Char) : Option (BMatch × List Char) :=
  match matchRd cs with
  | some r => some r
  | none =>
    match matchQu cs with
    | some r => some r
    | none =>
      match matchSqD cs with
      | some r => some r
      | none => matchSq cs

/-- Keep an optional group only when it participated with non-empty text
(the source's `is not None and is not ''` test). -/
def nonNil : Option (List Char) → Option (List Char)
  | some w => if w.isEmpty then none else some w
  | none => none

/-- The `brkts_append` computation of `inspect_brackets` (lines 270-278):
a space plus the word glued to the closing bracket, if any. -/
def brkts_append (m : BMatch) : List Char :=
  match nonNil m.rd_word with
  | some w => ' ' :: w
  | none =>
    match nonNil m.sq_word with
    | some w => ' ' :: w
    | none =>
      match nonNil m.sq_d_word with
      | some w => ' ' :: w
      | none => []

/-- Lines 280-285 of the source: when the match is a digits-only square
bracket, replace the content by the old-appendix entry whose stored number
equals the digits (first such entry in table order), if any. -/
def resolvedSq (st : RunState) (m : BMatch) : Option (List Char) :=
  match m.sq_d with
  | some d =>
    match st.oldreferences.find? (fun p => p.2 == String.mk d) with
    | some p => some p.1.toList
    | none => m.sq
  | none => m.sq

/-- Look a content up in the reference table (first entry with that key). -/
def lookupRef : List (String × Nat) → String → Option Nat
  | [], _ => none
  | (k, v) :: t, c => if k = c then some v else lookupRef t c

/-- The number-assignment step shared by the URL and citation branches of
`inspect_brackets`: reuse the stored number, else increment the counter and
append a new table entry. -/
def assignRef (st : RunState) (c : String) : Nat × RunState :=
  match lookupRef st.references c with
  | some n => (n, st)
  | none =>
    (st.counter + 1,
     { st with counter := st.counter + 1,
               references := st.references ++ [(c, st.counter + 1)] })

/-- Lines 319-325 of the source: on a repeated citation content, record it in
`duplicate_ref` (once, and only for non-digit matches) so the duplicate
notice is printed at most once; the reference table itself is untouched. -/
def citeUpdate (st : RunState) (c : String) (sqd : Option (List Char)) : RunState :=
  match lookupRef st.references c with
  | some _ =>
    if c ∉ st.duplicate_ref ∧ sqd = none then
      { st with duplicate_ref := st.duplicate_ref ++ [c] }
    else st
  | none => st

/-- The substitution callback `inspect_brackets` (lines 248-337), acting on
one match; returns the replacement text and the updated state. -/
def inspect_brackets (st : RunState) (m : BMatch) : String × RunState :=
  match m.rd with
  | some content =>
    if urlcheck content then
      ("[" ++ toString (assignRef st (String.mk content)).1 ++ "]" ++
         String.mk (brkts_append m),
       (assignRef st (String.mk content)).2)
    else (String.mk m.matched, st)
  | none =>
    match m.sq_qu_quotes with
    | some q => ("\"" ++ String.mk q ++ "\"", st)
    | none =>
      match resolvedSq st m with
      | some content =>
        if String.mk content = "sic" ∧ String.mk content = "sic!" then
          (String.mk m.matched, st)
        else
          ("[" ++ toString (assignRef (citeUpdate st (String.mk content) m.sq_d)
              (String.mk content)).1 ++ "]" ++ String.mk (brkts_append m),
           (assignRef (citeUpdate st (String.mk content) m.sq_d)
              (String.mk content)).2)
      | none =>
        if m.sq_d.isSome then ("", st) else (String.mk m.matched, st)

/-- The scan performed by `re.sub` over one line: at each position try the
alternation, replace a match by the callback's output and continue after it,
otherwise copy one character.  `fuel` bounds the number of steps; every step
consumes at least one character, so `cs.length` is enough fuel. -/
def subAux : Nat → RunState → List Char → List Char × RunState
  | 0, st, cs => (cs, st)
  | _ + 1, st, [] => ([], st)
  | f + 1, st, c :: cs' =>
    match tryMatch (c :: cs') with
    | some (m, rest) =>
      let r1 := inspect_brackets st m
      let r2 := subAux f r1.2 rest
      (r1.1.toList ++ r2.1, r2.2)
    | none =>
      let r := subAux f st cs'
      (c :: r.1, r.2)

/-- `re.sub(bracket_pattern, inspect_brackets, line)` with the global state
threaded through. -/
def subLine (st : RunState) (line : String) : String × RunState :=
  let r := subAux line.length st line.toList
  (String.mk r.1, r.2)

/-- State of the `old_refs` pre-pass: the globals `appendix_find`,
`appendix_start`, `appendix_lines` and the table `oldreferences` built by
`parse_oldrefs`. -/
structure OldScan where
  appendix_find : Nat := 0
  appendix_start : Nat := 0
  appendix_lines : Nat := 0
  oldreferences : List (String × String) := []
deriving Repr, DecidableEq

/-- Insertion into the Python `OrderedDict` `oldreferences`: an existing key
keeps its position but its value is overwritten, a new key is appended. -/
def odInsert (l : List (String × String)) (k v : String) : List (String × String) :=
  match l with
  | [] => [(k, v)]
  | (k', v') :: t => if k' = k then (k, v) :: t else (k', v') :: odInsert t k v

/-- One anchored attempt of the pattern `\[(\d+)\] *(.+)\n*` used on appendix
lines: returns the number group, the content group and the unconsumed
remainder.  The greedy ` *` backtracks one space when `(.+)` would otherwise
be empty, exactly as the regex engine does. -/
def matchOldRef (cs : List Char) : Option ((String × String) × List Char) :=
  match cs with
  | '[' :: r1 =>
    let ds := r1.takeWhile Char.isDigit
    if ds.isEmpty then none
    else
      match r1.dropWhile Char.isDigit with
      | ']' :: r3 =>
        let sps := r3.takeWhile (· == ' ')
        let r4 := r3.dropWhile (· == ' ')
        let content := r4.takeWhile (· ≠ '\n')
        if content.isEmpty then
          if sps.isEmpty then none
          else some ((String.mk ds, " "), r4.dropWhile (· == '\n'))
        else
          some ((String.mk ds, String.mk content),
                (r4.dropWhile (· ≠ '\n')).dropWhile (· == '\n'))
      | _ => none
  | _ => none

/-- The scan of `re.sub(r"\[(\d+)\] *(.+)\n*", parse_oldrefs, line)`: each
match stores its content/number pair in `oldreferences` (overwriting the
value of an existing content key) and is replaced by the empty string; the
first component is the residue of unmatched characters. -/
def oldrefSubAux : Nat → List (String × String) → List Char →
    List Char × List (String × String)
  | 0, od, cs => (cs, od)
  | _ + 1, od, [] => ([], od)
  | f + 1, od, c :: cs' =>
    match matchOldRef (c :: cs') with
    | some ((no, ref), rest) => oldrefSubAux f (odInsert od ref no) rest
    | none =>
      let r := oldrefSubAux f od cs'
      (c :: r.1, r.2)

/-- Second half of one `old_refs` iteration: once the sentinel has been seen
(`appendix_find == 1`), run `parse_oldrefs` over the line and count it into
the appendix block when it was consumed entirely. -/
def oldRefsApply (st1 : OldScan) (line : String) : OldScan :=
  if st1.appendix_find = 1 then
    { st1 with
      oldreferences := (oldrefSubAux line.length st1.oldreferences line.toList).2,
      appendix_lines :=
        if ((oldrefSubAux line.length st1.oldreferences line.toList).1).isEmpty then
          st1.appendix_lines + 1
        else st1.appendix_lines }
  else st1

/-- One iteration of the loop in `old_refs` (lines 359-371): detect the
sentinel line, then scan the line for old reference entries. -/
def oldRefsStep (st : OldScan) (i : Nat) (line : String) : OldScan :=
  oldRefsApply
    (if line = "___\n" then
      { st with appendix_find := 1, appendix_start := i,
                appendix_lines := st.appendix_lines + 1 }
     else st) line

/-- The loop of `old_refs` with the running line counter. -/
def oldRefsAux : OldScan → Nat → List String → OldScan
  | st, _, [] => st
  | st, i, l :: ls => oldRefsAux (oldRefsStep st (i + 1) l) (i + 1) ls

/-- The pre-pass `old_refs` (lines 351-371) over the whole source. -/
def old_refs (lines : List String) : OldScan :=
  oldRefsAux {} 0 lines

/-- The skip test of the main loop (lines 553-554): the current line is part
of the previously found appendix block. -/
def skipLine (osc : OldScan) (i : Nat) : Bool :=
  decide (0 < osc.appendix_find) && decide (osc.appendix_start ≤ i) &&
    decide (i ≤ osc.appendix_start + osc.appendix_lines)

/-- `write_appendix` (lines 232-246): the sentinel followed by one line per
reference table entry, in insertion order. -/
def write_appendix (refs : List (String × Nat)) : String :=
  "___\n" ++ String.join (refs.map (fun p => "[" ++ toString p.2 ++ "] " ++ p.1 ++ "\n"))

/-- State of the classification pass over the document: the reference state,
the `signature` flag, and the output accumulated so far. -/
structure DocState where
  run : RunState
  signature : Nat
  out : String
deriving Repr, DecidableEq

/-- One iteration of the main loop (lines 548-584): an e-mail signature line
gets the appendix (when non-empty) plus a blank line written before it,
appendix-block lines are skipped, every other line goes through the regex
substitution. -/
def mainStep (osc : OldScan) (i : Nat) (ds : DocState) (line : String) : DocState :=
  if line = "--\n" then
    { ds with signature := 1,
              out := (if 0 < ds.run.references.length then
                        ds.out ++ write_appendix ds.run.references
                      else ds.out) ++ "\n" ++ line }
  else if skipLine osc i then ds
  else
    let r := subLine ds.run line
    { run := r.2, signature := ds.signature, out := ds.out ++ r.1 }

/-- The main loop over all lines with the running line counter. -/
def mainLoopAux (osc : OldScan) : DocState → Nat → List String → DocState
  | ds, _, [] => ds
  | ds, i, l :: ls => mainLoopAux osc (mainStep osc (i + 1) ds l) (i + 1) ls

/-- The whole engine on a list of source lines (text-file path of
`__main__`): the `old_refs` pre-pass, the classification pass restarted from
the top, and the appendix appended after two newlines when no signature line
occurred.  Returns the output text and the final reference state. -/
def processDocument (lines : List String) : String × RunState :=
  let osc := old_refs lines
  let ds0 : DocState :=
    { run := { counter := 0, references := [], duplicate_ref := [],
               oldreferences := osc.oldreferences },
      signature := 0, out := "" }
  let ds := mainLoopAux osc ds0 0 lines
  let out :=
    if ds.signature = 0 ∧ 0 < ds.run.references.length then
      ds.out ++ "\n\n" ++ write_appendix ds.run.references
    else ds.out
  (out, ds.run)

/-- Split a string into lines, keeping the terminating newline of each line,
as Python's file iteration and `splitlines(True)` present them. -/
def splitLinesKeepAux (acc : List Char) : List Char → List String
  | [] => if acc.isEmpty then [] else [String.mk acc.reverse]
  | c :: r =>
    if c == '\n' then String.mk (c :: acc).reverse :: splitLinesKeepAux [] r
    else splitLinesKeepAux (c :: acc) r

/-- Split a string into newline-terminated lines. -/
def splitLinesKeep (s : String) : List String :=
  splitLinesKeepAux [] s.toList

/-- The content a match contributes to the reference table, if any: URL
round-bracket content, or square-bracket content after old-appendix
resolution.  Quoted brackets and unresolved digit markers contribute
nothing.  (A selector used to state properties of `inspect_brackets`.) -/
def refContent (st : RunState) (m : BMatch) : Option String :=
  match m.rd with
  | some content => if urlcheck content then some (String.mk content) else none
  | none =>
    match m.sq_qu_quotes with
    | some _ => none
    | none =>
      match resolvedSq st m with
      | some content => some (String.mk content)
      | none => none

/-- Invariant of the reference table: the counter equals the table size and
the stored numbers are exactly 1, 2, … in insertion order. -/
def RefInv (st : RunState) : Prop :=
  st.counter = st.references.length ∧
  st.references.map Prod.snd = List.range' 1 st.references.length

/-- Whether `re.sub(r"\[(\d+)\] *(.+)\n*", …, line)` consumes the whole line
(the `the_refs == ''` test in `old_refs`). -/
def oldrefFullMatch (line : String) : Bool :=
  ((oldrefSubAux line.length [] line.toList).1).isEmpty

theorem lookupRef_append_of_some {l₁ : List (String × Nat)} {c : String} {n : Nat}
    (l₂ : List (String × Nat)) (h : lookupRef l₁ c = some n) :
    lookupRef (l₁ ++ l₂) c = some n := by
  induction l₁ with
  | nil => simp [lookupRef] at h
  | cons p t ih =>
    obtain ⟨k, v⟩ := p
    by_cases hk : k = c
    · simp only [lookupRef, if_pos hk] at h ⊢
      exact h
    · simp only [lookupRef, if_neg hk] at h ⊢
      exact ih h

theorem lookupRef_append_self (l : List (String × Nat)) (c : String) (n : Nat)
    (h : lookupRef l c = none) : lookupRef (l ++ [(c, n)]) c = some n := by
  induction l with
  | nil => simp [lookupRef]
  | cons p t ih =>
    obtain ⟨k, v⟩ := p
    by_cases hk : k = c
    · simp only [lookupRef, if_pos hk] at h
      exact Option.noConfusion h
    · simp only [lookupRef, if_neg hk] at h ⊢
      exact ih h

theorem lookupRef_none_not_mem (l : List (String × Nat)) (c : String)
    (h : lookupRef l c = none) : c ∉ l.map Prod.fst := by
  induction l with
  | nil => simp
  | cons p t ih =>
    obtain ⟨k, v⟩ := p
    by_cases hk : k = c
    · simp only [lookupRef, if_pos hk] at h
      exact Option.noConfusion h
    · simp only [lookupRef, if_neg hk] at h
      simp only [List.map_cons, List.mem_cons]
      rintro (rfl | hmem)
      · exact hk rfl
      · exact ih h hmem

theorem assignRef_shape (st : RunState) (c : String) :
    ((assignRef st c).2 = st) ∨
    (lookupRef st.references c = none ∧
      (assignRef st c).2.references = st.references ++ [(c, st.counter + 1)] ∧
      (assignRef st c).2.counter = st.counter + 1) := by
  unfold assignRef
  cases h : lookupRef st.references c with
  | some n => exact Or.inl rfl
  | none => exact Or.inr ⟨rfl, rfl, rfl⟩

theorem assignRef_lookup (st : RunState) (c : String) :
    lookupRef (assignRef st c).2.references c = some (assignRef st c).1 := by
  unfold assignRef
  cases h : lookupRef st.references c with
  | some n => simpa using h
  | none => exact lookupRef_append_self _ _ _ h

theorem citeUpdate_references (st : RunState) (c : String) (o : Option (List Char)) :
    (citeUpdate st c o).references = st.references := by
  unfold citeUpdate
  split
  · split <;> rfl
  · rfl

theorem citeUpdate_counter (st : RunState) (c : String) (o : Option (List Char)) :
    (citeUpdate st c o).counter = st.counter := by
  unfold citeUpdate
  split
  · split <;> rfl
  · rfl

theorem citeUpdate_sq_d_some (st : RunState) (c : String) (d : List Char) :
    citeUpdate st c (some d) = st := by
  unfold citeUpdate
  split
  · simp
  · rfl

theorem sic_guard_false (c : String) : ¬(c = "sic" ∧ c = "sic!") := by
  rintro ⟨rfl, h⟩
  exact absurd h (by decide)

theorem inspect_shape (st : RunState) (m : BMatch) :
    ((inspect_brackets st m).2.references = st.references ∧
     (inspect_brackets st m).2.counter = st.counter) ∨
    ∃ c, lookupRef st.references c = none ∧
      (inspect_brackets st m).2.references = st.references ++ [(c, st.counter + 1)] ∧
      (inspect_brackets st m).2.counter = st.counter + 1 := by
  unfold inspect_brackets
  split
  · next content heq =>
    split
    · rcases assignRef_shape st (String.mk content) with h | ⟨h0, h1, h2⟩
      · exact Or.inl ⟨by rw [h], by rw [h]⟩
      · exact Or.inr ⟨String.mk content, h0, h1, h2⟩
    · exact Or.inl ⟨rfl, rfl⟩
  · next heq =>
    split
    · exact Or.inl ⟨rfl, rfl⟩
    · split
      · next content heq2 =>
        split
        · exact Or.inl ⟨rfl, rfl⟩
        · rcases assignRef_shape (citeUpdate st (String.mk content) m.sq_d)
              (String.mk content) with h | ⟨h0, h1, h2⟩
          · refine Or.inl ⟨?_, ?_⟩
            · rw [h, citeUpdate_references]
            · rw [h, citeUpdate_counter]
          · rw [citeUpdate_references] at h0 h1
            rw [citeUpdate_counter] at h1 h2
            exact Or.inr ⟨String.mk content, h0, h1, h2⟩
      · split
        · exact Or.inl ⟨rfl, rfl⟩
        · exact Or.inl ⟨rfl, rfl⟩

theorem subAux_pres (P : RunState → Prop)
    (h : ∀ st m, P st → P (inspect_brackets st m).2) :
    ∀ fuel cs st, P st → P (subAux fuel st cs).2 := by
  intro fuel
  induction fuel with
  | zero => intro cs st hP; simpa [subAux] using hP
  | succ f ih =>
    intro cs st hP
    cases cs with
    | nil => simpa [subAux] using hP
    | cons c cs' =>
      simp only [subAux]
      split
      · next m rest heq => exact ih rest _ (h st m hP)
      · exact ih cs' st hP

theorem subLine_pres (P : RunState → Prop)
    (h : ∀ st m, P st → P (inspect_brackets st m).2)
    (st : RunState) (line : String) (hP : P st) : P (subLine st line).2 :=
  subAux_pres P h _ _ _ hP

theorem mainLoopAux_pres (P : RunState → Prop)
    (h : ∀ st m, P st → P (inspect_brackets st m).2) (osc : OldScan) :
    ∀ lines ds i, P ds.run → P (mainLoopAux osc ds i lines).run := by
  intro lines
  induction lines with
  | nil => intro ds i hP; simpa [mainLoopAux] using hP
  | cons l ls ih =>
    intro ds i hP
    rw [mainLoopAux]
    apply ih
    unfold mainStep
    split
    · exact hP
    · split
      · exact hP
      · exact subLine_pres P h ds.run l hP

theorem processDocument_pres (P : RunState → Prop)
    (h : ∀ st m, P st → P (inspect_brackets st m).2)
    (lines : List String)
    (hP : ∀ old, P { counter := 0, references := [], duplicate_ref := [],
                     oldreferences := old }) :
    P (processDocument lines).2 :=
  mainLoopAux_pres P h _ lines _ 0 (hP _)

theorem inspect_lookup_stable (c : String) (n : Nat) (st : RunState) (m : BMatch)
    (h : lookupRef st.references c = some n) :
    lookupRef (inspect_brackets st m).2.references c = some n := by
  rcases inspect_shape st m with ⟨h1, _⟩ | ⟨c', _, h1, _⟩
  · rw [h1]; exact h
  · rw [h1]; exact lookupRef_append_of_some _ h

theorem inspect_nodup (st : RunState) (m : BMatch)
    (h : (st.references.map Prod.fst).Nodup) :
    ((inspect_brackets st m).2.references.map Prod.fst).Nodup := by
  rcases inspect_shape st m with ⟨h1, _⟩ | ⟨c', hc', h1, _⟩
  · rw [h1]; exact h
  · rw [h1, List.map_append]
    have hnm : c' ∉ st.references.map Prod.fst := lookupRef_none_not_mem _ _ hc'
    simp [List.nodup_append, h, hnm]

theorem inspect_refInv (st : RunState) (m : BMatch) (h : RefInv st) :
    RefInv (inspect_brackets st m).2 := by
  obtain ⟨hc, hm⟩ := h
  rcases inspect_shape st m with ⟨h1, h2⟩ | ⟨c', _, h1, h2⟩
  · exact ⟨by rw [h2, h1, hc], by rw [h1]; exact hm⟩
  · constructor
    · rw [h2, h1]
      simp [hc]
    · rw [h1, List.map_append, hm, hc]
      simp only [List.length_append, List.map_cons, List.map_nil, List.length_cons,
        List.length_nil]
      have := @List.range'_concat 1 1 st.references.length
      simp only [Nat.one_mul] at this
      rw [show st.references.length + (0 + 1) = st.references.length + 1 by omega, this]
      simp [Nat.add_comm]

theorem processDocument_refInv (lines : List String) :
    RefInv (processDocument lines).2 :=
  processDocument_pres RefInv inspect_refInv lines (fun _ => ⟨rfl, rfl⟩)

theorem processDocument_nodup (lines : List String) :
    (((processDocument lines).2.references).map Prod.fst).Nodup :=
  processDocument_pres (fun st => ((st.references).map Prod.fst).Nodup)
    inspect_nodup lines (fun _ => by simp)

theorem inspect_render (st : RunState) (m : BMatch) (c : String)
    (h : refContent st m = some c) :
    ∃ n, (inspect_brackets st m).1 =
        "[" ++ toString n ++ "]" ++ String.mk (brkts_append m) ∧
      lookupRef (inspect_brackets st m).2.references c = some n := by
  unfold refContent at h
  unfold inspect_brackets
  split
  · next content heq =>
    rw [heq] at h
    simp only at h
    by_cases hu : urlcheck content = true
    · rw [if_pos hu] at h
      rw [if_pos hu]
      obtain rfl : String.mk content = c := by simpa using h
      exact ⟨(assignRef st (String.mk content)).1, rfl, assignRef_lookup _ _⟩
    · rw [if_neg hu] at h
      exact Option.noConfusion h
  · next heq =>
    rw [heq] at h
    simp only at h
    split
    · next q heq2 =>
      rw [heq2] at h
      simp only at h
      exact Option.noConfusion h
    · next heq2 =>
      rw [heq2] at h
      simp only at h
      split
      · next content heq3 =>
        rw [heq3] at h
        simp only [Option.some.injEq] at h
        obtain rfl := h
        split
        · next hsic => exact absurd hsic (sic_guard_false _)
        · exact ⟨(assignRef (citeUpdate st (String.mk content) m.sq_d)
              (String.mk content)).1, rfl, assignRef_lookup _ _⟩
      · next heq3 =>
        rw [heq3] at h
        simp only at h
        exact Option.noConfusion h

theorem twdw_assemble {cs r2 r4 rest : List Char} {S P W : Char → Bool} {o c : Char}
    (heq2 : cs.dropWhile S = o :: r2) (heq4 : r2.dropWhile P = c :: r4)
    (hrest : rest = r4.dropWhile W) :
    cs = (cs.takeWhile S ++ o :: (r2.takeWhile P ++ c :: r4.takeWhile W)) ++ rest := by
  subst hrest
  calc cs = cs.takeWhile S ++ cs.dropWhile S :=
        (List.takeWhile_append_dropWhile _ _).symm
    _ = cs.takeWhile S ++ o :: r2 := by rw [heq2]
    _ = cs.takeWhile S ++ o :: (r2.takeWhile P ++ r2.dropWhile P) := by
        rw [List.takeWhile_append_dropWhile]
    _ = cs.takeWhile S ++ o :: (r2.takeWhile P ++ c :: r4) := by rw [heq4]
    _ = cs.takeWhile S ++ o :: (r2.takeWhile P ++ c ::
          (r4.takeWhile W ++ r4.dropWhile W)) := by
        rw [List.takeWhile_append_dropWhile]
    _ = (cs.takeWhile S ++ o :: (r2.takeWhile P ++ c :: r4.takeWhile W)) ++
          r4.dropWhile W := by
        simp [List.append_assoc]

theorem matchRd_inv {cs : List Char} {m : BMatch} {rest : List Char}
    (h : matchRd cs = some (m, rest)) :
    cs = m.matched ++ rest ∧ ∃ content, m.rd = some content := by
  unfold matchRd at h
  split at h
  next r2 heq2 =>
    split at h
    next r4 heq4 =>
      simp only [Option.some.injEq, Prod.mk.injEq] at h
      obtain ⟨hm, hrest⟩ := h
      subst hm
      subst hrest
      exact ⟨twdw_assemble heq2 heq4 rfl, _, rfl⟩
    next => exact Option.noConfusion h
  next => exact Option.noConfusion h

theorem matchSqD_inv {cs : List Char} {m : BMatch} {rest : List Char}
    (h : matchSqD cs = some (m, rest)) :
    cs = m.matched ++ rest ∧
    ∃ ds, m.rd = none ∧ m.sq_qu_quotes = none ∧ m.sq = none ∧ m.sq_d = some ds := by
  unfold matchSqD at h
  split at h
  next r2 heq2 =>
    split at h
    · exact Option.noConfusion h
    · split at h
      next r4 heq4 =>
        simp only [Option.some.injEq, Prod.mk.injEq] at h
        obtain ⟨hm, hrest⟩ := h
        subst hm
        subst hrest
        exact ⟨twdw_assemble heq2 heq4 rfl, _, rfl, rfl, rfl, rfl⟩
      next => exact Option.noConfusion h
  next => exact Option.noConfusion h

theorem inspect_rd_nonurl (st : RunState) (m : BMatch) (content : List Char)
    (hrd : m.rd = some content) (hu : urlcheck content = false) :
    inspect_brackets st m = (String.mk m.matched, st) := by
  unfold inspect_brackets
  split
  · next content' heq =>
    rw [hrd] at heq
    obtain rfl : content = content' := by
      injection heq
    rw [if_neg (by simp [hu])]
  · next heq =>
    rw [hrd] at heq
    exact Option.noConfusion heq

theorem inspect_sqd_old (st : RunState) (m : BMatch) (ds : List Char)
    (p : String × String)
    (hrd : m.rd = none) (hqu : m.sq_qu_quotes = none) (hsq : m.sq = none)
    (hds : m.sq_d = some ds)
    (hfind : st.oldreferences.find? (fun q => q.2 == String.mk ds) = some p) :
    inspect_brackets st m =
      ("[" ++ toString (assignRef st p.1).1 ++ "]" ++ String.mk (brkts_append m),
       (assignRef st p.1).2) := by
  have hres : resolvedSq st m = some p.1.toList := by
    unfold resolvedSq
    rw [hds]
    simp only [hfind]
  unfold inspect_brackets
  rw [hrd, hqu, hres]
  simp only
  rw [if_neg (sic_guard_false _), hds, citeUpdate_sq_d_some]
  rfl

theorem inspect_sqd_orphan (st : RunState) (m : BMatch) (ds : List Char)
    (hrd : m.rd = none) (hqu : m.sq_qu_quotes = none) (hsq : m.sq = none)
    (hds : m.sq_d = some ds)
    (hfind : st.oldreferences.find? (fun q => q.2 == String.mk ds) = none) :
    inspect_brackets st m = ("", st) := by
  have hres : resolvedSq st m = none := by
    unfold resolvedSq
    rw [hds]
    simp only [hfind]
    exact hsq
  unfold inspect_brackets
  rw [hrd, hqu, hres]
  simp only
  rw [if_pos (by rw [hds]; rfl)]

theorem refs_snd_lt_iff {refs : List (String × Nat)}
    (hm : refs.map Prod.snd = List.range' 1 refs.length) (i j : Fin refs.length) :
    (refs.get i).2 < (refs.get j).2 ↔ (i : Nat) < (j : Nat) := by
  have key : ∀ k : Fin refs.length, (refs.get k).2 = 1 + (k : Nat) := by
    intro k
    have h1 : (refs.map Prod.snd).get ⟨(k : Nat), by simpa using k.isLt⟩ =
        (refs.get k).2 := by
      simp
    rw [List.get_of_eq hm] at h1
    simpa [List.getElem_range'_1] using h1.symm
  rw [key i, key j]
  omega

/-- C1: on the code as written, a square-bracket span `[sic]` or `[sic!]` is
not left untouched: it is assigned a footnote number and entered into the
reference table, because the guard on line 313 of the source compares the
content with `'sic'` AND with `'sic!'` simultaneously, a test no string can
satisfy (third conjunct).  This contradicts the claim (and the module's own
docstring, which says sic markers are ignored). -/
theorem spec_c1_sic_footnoted :
    subLine ⟨0, [], [], []⟩ "He was [sic] there.\n" =
      ("He was[1] there.\n", ⟨1, [("sic", 1)], [], []⟩) ∧
    subLine ⟨0, [], [], []⟩ "He was [sic!] there.\n" =
      ("He was[1] there.\n", ⟨1, [("sic!", 1)], [], []⟩) ∧
    (∀ c : String, ¬(c = "sic" ∧ c = "sic!")) :=
  ⟨by decide, by decide, sic_guard_false⟩

/-- C2 counterexample: on the scenario line the engine produces
`See the details[1].` — the space before the opening parenthesis is part of
the regex match (`[ ]*`) and is not re-emitted — so the claimed output
`See the details [1].` is wrong. -/
theorem spec_c2_counterexample :
    (subLine ⟨0, [], [], []⟩ "See the details (https://example.com/page).\n").1 =
      "See the details[1].\n" ∧
    (subLine ⟨0, [], [], []⟩ "See the details (https://example.com/page).\n").1 ≠
      "See the details [1].\n" := by
  exact ⟨by decide, by decide⟩

/-- C2 amended: the transformed line is `See the details[1].` (the space
before the marker is consumed, not preserved) and the appendix holds the
single entry `[1] https://example.com/page`. -/
theorem spec_c2_amended :
    processDocument ["See the details (https://example.com/page).\n"] =
      ("See the details[1].\n\n\n___\n[1] https://example.com/page\n",
       ⟨1, [("https://example.com/page", 1)], [], []⟩) ∧
    write_appendix [("https://example.com/page", 1)] =
      "___\n[1] https://example.com/page\n" := by
  exact ⟨by decide, by decide⟩

/-- C3: (1) every span classified as a reference with content `c` renders as
`[n]` plus the adjacency repair, where `n` is exactly the number the table
maps `c` to immediately afterwards; (2) an existing table assignment is
never changed for the rest of the run; (3) the final table keys are
pairwise distinct, so the appendix has exactly one entry per content. -/
theorem spec_c3 :
    (∀ (st : RunState) (m : BMatch) (c : String), refContent st m = some c →
      ∃ n, (inspect_brackets st m).1 =
          "[" ++ toString n ++ "]" ++ String.mk (brkts_append m) ∧
        lookupRef (inspect_brackets st m).2.references c = some n) ∧
    (∀ (osc : OldScan) (ds : DocState) (i : Nat) (lines : List String)
        (c : String) (n : Nat),
      lookupRef ds.run.references c = some n →
      lookupRef (mainLoopAux osc ds i lines).run.references c = some n) ∧
    (∀ lines : List String,
      (((processDocument lines).2.references).map Prod.fst).Nodup) := by
  refine ⟨inspect_render, ?_, processDocument_nodup⟩
  intro osc ds i lines c n h
  exact mainLoopAux_pres (fun st => lookupRef st.references c = some n)
    (fun st m hp => inspect_lookup_stable c n st m hp) osc lines ds i h

/-- Witness for C3 at concrete inputs: a citation span `[x]` on the empty
state, and stability of an existing assignment across a further line. -/
theorem spec_c3_witness :
    (∃ n, (inspect_brackets ⟨0, [], [], []⟩
        { matched := "[x]".toList, sq := some ['x'], sq_word := some [] }).1 =
          "[" ++ toString n ++ "]" ++ String.mk (brkts_append
            { matched := "[x]".toList, sq := some ['x'], sq_word := some [] }) ∧
      lookupRef (inspect_brackets ⟨0, [], [], []⟩
        { matched := "[x]".toList, sq := some ['x'],
          sq_word := some [] }).2.references "x" = some n) ∧
    lookupRef (mainLoopAux {} ⟨⟨1, [("https://x.example", 1)], [], []⟩, 0, ""⟩ 0
        ["more (https://b.example) text.\n"]).run.references "https://x.example" =
      some 1 :=
  ⟨spec_c3.1 _ _ _ (by decide), spec_c3.2.1 _ _ _ _ _ _ (by decide)⟩

/-- C4: over any document, the numbers stored in the reference table (in
insertion order, i.e. order of first appearance during the classification
pass) are exactly 1, 2, 3, …, and for two table entries the assigned numbers
compare exactly as their insertion positions do. -/
theorem spec_c4 (lines : List String) :
    (processDocument lines).2.references.map Prod.snd =
      List.range' 1 (processDocument lines).2.references.length ∧
    ∀ i j : Fin (processDocument lines).2.references.length,
      ((processDocument lines).2.references.get i).2 <
        ((processDocument lines).2.references.get j).2 ↔ (i : Nat) < (j : Nat) := by
  obtain ⟨hc, hm⟩ := processDocument_refInv lines
  exact ⟨hm, fun i j => refs_snd_lt_iff hm i j⟩

/-- C5: a round-bracket match covers exactly the consumed characters, and
whenever its content fails the URL check the callback returns the matched
text verbatim with the state untouched; concretely, lines with nested or
unbalanced parentheses pass through unchanged. -/
theorem spec_c5 (st : RunState) (cs rest : List Char) (m : BMatch)
    (hm : matchRd cs = some (m, rest)) :
    cs = m.matched ++ rest ∧
    (∀ content, m.rd = some content → urlcheck content = false →
      inspect_brackets st m = (String.mk m.matched, st)) ∧
    subLine ⟨0, [], [], []⟩ "(a (b) c)\n" = ("(a (b) c)\n", ⟨0, [], [], []⟩) ∧
    subLine ⟨0, [], [], []⟩ "(a ( b\n" = ("(a ( b\n", ⟨0, [], [], []⟩) := by
  obtain ⟨hsplit, content, hrd⟩ := matchRd_inv hm
  exact ⟨hsplit, fun content' hrd' hu => inspect_rd_nonurl st m content' hrd' hu,
    by decide, by decide⟩

/-- Witness for C5: the non-URL span `(hello world)` is returned verbatim
with the state unchanged. -/
theorem spec_c5_witness :
    inspect_brackets ⟨0, [], [], []⟩
      { matched := "(hello world)".toList, rd := some "hello world".toList,
        rd_word := some [] } = ("(hello world)", ⟨0, [], [], []⟩) :=
  (spec_c5 ⟨0, [], [], []⟩ "(hello world)".toList []
      { matched := "(hello world)".toList, rd := some "hello world".toList,
        rd_word := some [] } (by decide)).2.1 "hello world".toList rfl (by decide)

/-- C6: a digits-only square-bracket match whose digits equal the stored
number of an old-appendix entry is replaced by `[n]` where `n` is the
current-run number for that entry's content (`assignRef` reuses the number
if present, else inserts), and afterwards the table maps the content to
`n`. -/
theorem spec_c6 (st : RunState) (cs rest : List Char) (m : BMatch) (ds : List Char)
    (p : String × String)
    (hm : matchSqD cs = some (m, rest)) (hds : m.sq_d = some ds)
    (hfind : st.oldreferences.find? (fun q => q.2 == String.mk ds) = some p) :
    cs = m.matched ++ rest ∧
    inspect_brackets st m =
      ("[" ++ toString (assignRef st p.1).1 ++ "]" ++ String.mk (brkts_append m),
       (assignRef st p.1).2) ∧
    lookupRef (assignRef st p.1).2.references p.1 = some (assignRef st p.1).1 := by
  obtain ⟨hsplit, ds', hrd, hqu, hsq, hds'⟩ := matchSqD_inv hm
  exact ⟨hsplit, inspect_sqd_old st m ds p hrd hqu hsq hds hfind,
    assignRef_lookup _ _⟩

/-- Witness for C6: marker `[1]` with old entry `[1] https://old.example` is
renumbered to the current-run number 1 and the content enters the table. -/
theorem spec_c6_witness :
    inspect_brackets ⟨0, [], [], [("https://old.example", "1")]⟩
        { matched := "[1]".toList, sq_d := some ['1'], sq_d_word := some [] } =
      ("[1]", ⟨1, [("https://old.example", 1)], [],
        [("https://old.example", "1")]⟩) ∧
    lookupRef [("https://old.example", 1)] "https://old.example" = some 1 := by
  have h := spec_c6 ⟨0, [], [], [("https://old.example", "1")]⟩
      "[1] x".toList " x".toList
      { matched := "[1]".toList, sq_d := some ['1'], sq_d_word := some [] }
      ['1'] ("https://old.example", "1") (by decide) rfl (by decide)
  exact ⟨h.2.1, h.2.2⟩

/-- C7: a digits-only square-bracket match whose digits equal no stored
old-appendix number is replaced by the empty string with the state (and so
the footnote counter) untouched; concretely, `See [1] here.` with no old
appendix becomes `See here.`. -/
theorem spec_c7 (st : RunState) (cs rest : List Char) (m : BMatch) (ds : List Char)
    (hm : matchSqD cs = some (m, rest)) (hds : m.sq_d = some ds)
    (hfind : st.oldreferences.find? (fun q => q.2 == String.mk ds) = none) :
    cs = m.matched ++ rest ∧
    inspect_brackets st m = ("", st) ∧
    subLine ⟨0, [], [], []⟩ "See [1] here.\n" = ("See here.\n", ⟨0, [], [], []⟩) := by
  obtain ⟨hsplit, ds', hrd, hqu, hsq, hds'⟩ := matchSqD_inv hm
  exact ⟨hsplit, inspect_sqd_orphan st m ds hrd hqu hsq hds hfind, by decide⟩

/-- Witness for C7: orphan marker `[7]` on an empty old-reference table is
deleted and the state is unchanged. -/
theorem spec_c7_witness :
    inspect_brackets ⟨0, [], [], []⟩
        { matched := "[7]".toList, sq_d := some ['7'], sq_d_word := some [] } =
      ("", ⟨0, [], [], []⟩) :=
  (spec_c7 ⟨0, [], [], []⟩ "[7]".toList []
      { matched := "[7]".toList, sq_d := some ['7'], sq_d_word := some [] }
      ['7'] (by decide) rfl rfl).2.1

/-- C9 counterexample: running the engine on its own output (a body whose
only bracket spans are the appendix-assigned markers `[1]`, `[2]` plus the
trailing appendix) does not reproduce the input byte-for-byte: two extra
newline bytes are inserted before the regenerated appendix. -/
theorem spec_c9_counterexample :
    (processDocument (splitLinesKeep
        (processDocument ["A (https://a.example) and (https://b.example).\n"]).1)).1 ≠
      (processDocument ["A (https://a.example) and (https://b.example).\n"]).1 := by
  decide

/-- C9 amended: on the engine's own output the markers `[1]`, `[2]` map to
themselves (the body line reappears unchanged and the reference table of the
second run equals that of the first) and the regenerated appendix block
equals the old one, but the second output carries two extra `\n` bytes
inserted before the appendix, so the round trip is not byte-identical. -/
theorem spec_c9_amended :
    (processDocument ["A (https://a.example) and (https://b.example).\n"]).1 =
      "A[1] and[2].\n\n\n___\n[1] https://a.example\n[2] https://b.example\n" ∧
    (processDocument (splitLinesKeep
        "A[1] and[2].\n\n\n___\n[1] https://a.example\n[2] https://b.example\n")).2.references =
      (processDocument ["A (https://a.example) and (https://b.example).\n"]).2.references ∧
    write_appendix (processDocument (splitLinesKeep
        "A[1] and[2].\n\n\n___\n[1] https://a.example\n[2] https://b.example\n")).2.references =
      "___\n[1] https://a.example\n[2] https://b.example\n" ∧
    (processDocument (splitLinesKeep
        "A[1] and[2].\n\n\n___\n[1] https://a.example\n[2] https://b.example\n")).1 =
      "A[1] and[2].\n\n\n" ++ "\n\n" ++
        "___\n[1] https://a.example\n[2] https://b.example\n" := by
  exact ⟨by decide, by decide, by decide, by decide⟩

/-- C10: the old-reference table is keyed by content and overwrites on
insert, so of two old entries with the same content only the last parsed
number survives; a marker bearing the earlier number then matches nothing
and is deleted as an orphan, while the surviving number still resolves. -/
theorem spec_c10 :
    (∀ (X n₁ n₂ : String), odInsert (odInsert [] X n₁) X n₂ = [(X, n₂)]) ∧
    (old_refs ["___\n", "[1] https://e.example\n",
        "[2] https://e.example\n"]).oldreferences =
      [("https://e.example", "2")] ∧
    (∀ (st : RunState) (m : BMatch) (ds : List Char),
      m.rd = none → m.sq_qu_quotes = none → m.sq = none → m.sq_d = some ds →
      st.oldreferences.find? (fun q => q.2 == String.mk ds) = none →
      inspect_brackets st m = ("", st)) ∧
    subLine ⟨0, [], [], [("https://e.example", "2")]⟩ "a [1] b [2] c.\n" =
      ("a b[1] c.\n",
       ⟨1, [("https://e.example", 1)], [], [("https://e.example", "2")]⟩) := by
  refine ⟨?_, by decide, ?_, by decide⟩
  · intro X n₁ n₂
    simp [odInsert]
  · intro st m ds h1 h2 h3 h4 h5
    exact inspect_sqd_orphan st m ds h1 h2 h3 h4 h5

/-- Witness for C10: marker `[1]` is an orphan once entry `[2]` with the same
content has overwritten the table value. -/
theorem spec_c10_witness :
    inspect_brackets ⟨0, [], [], [("https://e.example", "2")]⟩
        { matched := " [1]".toList, sq_d := some ['1'], sq_d_word := some [] } =
      ("", ⟨0, [], [], [("https://e.example", "2")]⟩) :=
  spec_c10.2.2.1 _ _ ['1'] rfl rfl rfl rfl (by decide)

theorem oldrefSubAux_fst_indep :
    ∀ (f : Nat) (cs : List Char) (od od' : List (String × String)),
      (oldrefSubAux f od cs).1 = (oldrefSubAux f od' cs).1 := by
  intro f
  induction f with
  | zero => intro cs od od'; rfl
  | succ f ih =>
    intro cs od od'
    cases cs with
    | nil => rfl
    | cons c cs' =>
      simp only [oldrefSubAux]
      split
      · next no ref rest heq => exact ih rest _ _
      · exact congrArg (List.cons c) (ih cs' _ _)

theorem oldRefsAux_append :
    ∀ (xs : List String) (st : OldScan) (i : Nat) (ys : List String),
      oldRefsAux st i (xs ++ ys) = oldRefsAux (oldRefsAux st i xs) (i + xs.length) ys := by
  intro xs
  induction xs with
  | nil => intro st i ys; simp [oldRefsAux]
  | cons x xs' ih =>
    intro st i ys
    rw [List.cons_append, oldRefsAux, ih]
    have hn : i + (x :: xs').length = i + 1 + xs'.length := by
      simp only [List.length_cons]
      omega
    rw [hn]
    rfl

theorem oldRefsAux_body (body : List String) :
    ∀ i : Nat, (∀ l ∈ body, l ≠ "___\n") →
      oldRefsAux ⟨0, 0, 0, []⟩ i body = ⟨0, 0, 0, []⟩ := by
  induction body with
  | nil => intro i _; rfl
  | cons l ls ih =>
    intro i hb
    rw [oldRefsAux]
    have hstep : oldRefsStep ⟨0, 0, 0, []⟩ (i + 1) l = ⟨0, 0, 0, []⟩ := by
      unfold oldRefsStep oldRefsApply
      rw [if_neg (hb l (by simp))]
      rfl
    rw [hstep]
    exact ih (i + 1) (fun l' hl' => hb l' (by simp [hl']))

theorem oldRefsStep_sentinel (i : Nat) :
    oldRefsStep ⟨0, 0, 0, []⟩ i "___\n" = ⟨1, i, 1, []⟩ := by
  rfl

theorem oldrefFullMatch_sentinel : oldrefFullMatch "___\n" = false := by
  decide

theorem oldRefsStep_entry (st : OldScan) (e : String) (i : Nat)
    (hfind : st.appendix_find = 1) (hne : e ≠ "___\n")
    (hfull : oldrefFullMatch e = true) :
    oldRefsStep st i e =
      { st with appendix_lines := st.appendix_lines + 1,
                oldreferences := (oldrefSubAux e.length st.oldreferences e.toList).2 } := by
  unfold oldRefsStep oldRefsApply
  rw [if_neg hne, if_pos hfind]
  have hres : ((oldrefSubAux e.length st.oldreferences e.toList).1).isEmpty = true := by
    rw [oldrefSubAux_fst_indep e.length e.toList st.oldreferences []]
    exact hfull
  rw [if_pos hres]

theorem oldRefsAux_entries (entries : List String) :
    ∀ (st : OldScan) (i : Nat), st.appendix_find = 1 →
      (∀ l ∈ entries, oldrefFullMatch l = true) →
      (oldRefsAux st i entries).appendix_find = st.appendix_find ∧
      (oldRefsAux st i entries).appendix_start = st.appendix_start ∧
      (oldRefsAux st i entries).appendix_lines = st.appendix_lines + entries.length := by
  induction entries with
  | nil => intro st i _ _; exact ⟨rfl, rfl, by simp [oldRefsAux]⟩
  | cons e rest ih =>
    intro st i h1 h2
    have hfm : oldrefFullMatch e = true := h2 e (by simp)
    have hne : e ≠ "___\n" := by
      intro he
      rw [he, oldrefFullMatch_sentinel] at hfm
      exact Bool.noConfusion hfm
    rw [oldRefsAux, oldRefsStep_entry st e (i + 1) h1 hne hfm]
    obtain ⟨a1, a2, a3⟩ := ih
      { st with appendix_lines := st.appendix_lines + 1,
                oldreferences := (oldrefSubAux e.length st.oldreferences e.toList).2 }
      (i + 1) h1 (fun l hl => h2 l (by simp [hl]))
    refine ⟨a1, a2, ?_⟩
    rw [a3]
    simp only [List.length_cons]
    omega

theorem old_refs_structure (body entries : List String)
    (hb : ∀ l ∈ body, l ≠ "___\n")
    (he : ∀ l ∈ entries, oldrefFullMatch l = true) :
    (old_refs (body ++ "___\n" :: entries)).appendix_find = 1 ∧
    (old_refs (body ++ "___\n" :: entries)).appendix_start = body.length + 1 ∧
    (old_refs (body ++ "___\n" :: entries)).appendix_lines = 1 + entries.length := by
  unfold old_refs
  rw [oldRefsAux_append, oldRefsAux_body body 0 hb, oldRefsAux, oldRefsStep_sentinel]
  obtain ⟨a1, a2, a3⟩ :=
    oldRefsAux_entries entries ⟨1, 0 + body.length + 1, 1, []⟩ (0 + body.length + 1) rfl he
  refine ⟨by simpa using a1, ?_, ?_⟩
  · simpa using a2
  · simpa [Nat.add_comm] using a3

/-- C8 counterexample: with input `body, ___, [1] x, tail` the line `tail`
follows the appendix block yet is also suppressed — the skip range covers
line 4 although the block is lines 2-3 — so the body output is just `body`
and the claimed exact suppression fails. -/
theorem spec_c8_counterexample :
    (processDocument ["body\n", "___\n", "[1] x\n", "tail\n"]).1 = "body\n" ∧
    skipLine (old_refs ["body\n", "___\n", "[1] x\n", "tail\n"]) 4 = true := by
  exact ⟨by decide, by decide⟩

/-- C8 amended: for a sentinel at line `b+1` followed only by fully matching
reference lines (the appendix extends to end of input), `old_refs` records
start `b+1` and `1 + k` block lines, and the classifier pass suppresses
exactly the lines from the sentinel to end of input.  (When further lines
follow the appendix the suppression range extends one line index past the
counted block and entry scanning continues to end of input, which is what
the counterexample exhibits.) -/
theorem spec_c8_amended (body entries : List String)
    (hb : ∀ l ∈ body, l ≠ "___\n")
    (he : ∀ l ∈ entries, oldrefFullMatch l = true) :
    (old_refs (body ++ "___\n" :: entries)).appendix_find = 1 ∧
    (old_refs (body ++ "___\n" :: entries)).appendix_start = body.length + 1 ∧
    (old_refs (body ++ "___\n" :: entries)).appendix_lines = 1 + entries.length ∧
    ∀ i : Nat, 1 ≤ i → i ≤ (body ++ "___\n" :: entries).length →
      (skipLine (old_refs (body ++ "___\n" :: entries)) i = true ↔
        body.length + 1 ≤ i) := by
  obtain ⟨a1, a2, a3⟩ := old_refs_structure body entries hb he
  refine ⟨a1, a2, a3, ?_⟩
  intro i hi1 hi2
  unfold skipLine
  rw [a1, a2, a3]
  simp only [Bool.and_eq_true, decide_eq_true_eq]
  have hlen : (body ++ "___\n" :: entries).length =
      body.length + 1 + entries.length := by
    simp only [List.length_append, List.length_cons]
    omega
  rw [hlen] at hi2
  constructor
  · rintro ⟨⟨_, h2⟩, _⟩
    exact h2
  · intro h
    exact ⟨⟨by omega, h⟩, by omega⟩

/-- Witness for C8 amended: body `a`, appendix `___` + `[1] x`; the block is
lines 2-3, line 1 is kept and lines 2 and 3 are skipped. -/
theorem spec_c8_amended_witness :
    (old_refs ["a\n", "___\n", "[1] x\n"]).appendix_find = 1 ∧
    (old_refs ["a\n", "___\n", "[1] x\n"]).appendix_start = 2 ∧
    (old_refs ["a\n", "___\n", "[1] x\n"]).appendix_lines = 2 ∧
    skipLine (old_refs ["a\n", "___\n", "[1] x\n"]) 1 = false ∧
    skipLine (old_refs ["a\n", "___\n", "[1] x\n"]) 2 = true ∧
    skipLine (old_refs ["a\n", "___\n", "[1] x\n"]) 3 = true := by
  have h := spec_c8_amended ["a\n"] ["[1] x\n"]
    (by intro l hl; simp at hl; rw [hl]; decide)
    (by intro l hl; simp at hl; rw [hl]; decide)
  refine ⟨h.1, h.2.1, h.2.2.1, ?_, ?_, ?_⟩
  · have h1 := h.2.2.2 1 (by decide) (by decide)
    rw [Bool.eq_false_iff]
    intro hx
    have h2 := h1.mp hx
    simp at h2
  · exact (h.2.2.2 2 (by decide) (by decide)).mpr (by decide)
  · exact (h.2.2.2 3 (by decide) (by decide)).mpr (by decide)
